import Mathlib

/-!
Shallow embedding of `src/script.py` (bb-moedas): a pipeline that fetches
currency series, normalizes raw records, computes per-currency previous
values and day-over-day percent changes, and exports a CSV.

Strings from the Python source are modelled as `List Char` (`Str`).
Python floats are modelled as exact decimals (`Dec`, an integer mantissa
with a power-of-ten scale); IEEE special values arising in the percent
computation are modelled by `PFloat` (finite rational, infinities, NaN).
-/

abbrev Str := List Char

/-! ### Digit characters and natural-number printing / parsing -/

/-- The character for a single decimal digit (`0 ≤ d ≤ 9`). -/
def digitChar (d : Nat) : Char := Char.ofNat (48 + d)

/-- Inverse of `digitChar`: the digit value of a character, if any. -/
def charDigit (c : Char) : Option Nat :=
  if 48 ≤ c.toNat ∧ c.toNat ≤ 57 then some (c.toNat - 48) else none

/-- Big-endian decimal digits of `n` (empty for `n = 0`), fuelled so the
definition is structural and kernel-reducible. -/
def printNatAux : Nat → Nat → Str
  | 0, _ => []
  | fuel + 1, n => if n = 0 then [] else printNatAux fuel (n / 10) ++ [digitChar (n % 10)]

/-- Decimal rendering of a natural number (`"0"` for zero). -/
def printNat (n : Nat) : Str :=
  if n = 0 then ['0'] else printNatAux n n

/-- Horner-scheme accumulation of decimal digits; fails on a non-digit. -/
def parseNatAux (acc : Nat) : Str → Option Nat
  | [] => some acc
  | c :: cs =>
    match charDigit c with
    | some d => parseNatAux (acc * 10 + d) cs
    | none => none

/-- Parse a nonempty all-digit string as a natural number. -/
def parseNat (s : Str) : Option Nat :=
  if s = [] then none else parseNatAux 0 s

/-- Left-pad a string with `'0'` up to width `k`. -/
def padZero (k : Nat) (s : Str) : Str := List.replicate (k - s.length) '0' ++ s

/-! ### Splitting, prefix matching, replacement -/

/-- Split a string on a separator character; models Python `str.split(sep)`
(so `splitOnChar sep [] = [[]]`). -/
def splitOnChar (sep : Char) : Str → List Str
  | [] => [[]]
  | c :: rest =>
    if c = sep then [] :: splitOnChar sep rest
    else
      match splitOnChar sep rest with
      | [] => [[c]]
      | f :: fs => (c :: f) :: fs

/-- Fuelled left-to-right non-overlapping replacement of every occurrence of
`pat` by `rep`; models Python `str.replace(pat, rep)` for nonempty `pat`. -/
def replaceAllF (pat rep : Str) : Nat → Str → Str
  | 0, s => s
  | fuel + 1, s =>
    match s with
    | [] => []
    | c :: rest =>
      if pat ≠ [] ∧ pat.isPrefixOf (c :: rest) then
        rep ++ replaceAllF pat rep fuel ((c :: rest).drop pat.length)
      else c :: replaceAllF pat rep fuel rest

/-- Python `s.replace(pat, rep)` (replaces every occurrence, left to right). -/
def pyReplace (s pat rep : Str) : Str := replaceAllF pat rep s.length s

/-- Python whitespace characters recognized by `str.strip()`. -/
def isPySpace (c : Char) : Bool :=
  c = ' ' ∨ c = '\t' ∨ c = '\n' ∨ c = '\x0d' ∨ c = '\x0b' ∨ c = '\x0c'

/-- Python `str.strip()`: remove leading and trailing whitespace. -/
def pyStrip (s : Str) : Str :=
  ((s.dropWhile isPySpace).reverse.dropWhile isPySpace).reverse

/-- ASCII upper-casing of one character; models Python `str.upper()` on the
ASCII inputs this program sees. -/
def pyUpperChar (c : Char) : Char :=
  if 97 ≤ c.toNat ∧ c.toNat ≤ 122 then Char.ofNat (c.toNat - 32) else c

/-- Python `str.upper()` (ASCII). -/
def pyUpper (s : Str) : Str := s.map pyUpperChar

/-! ### Exact decimals (model of the Python floats in this pipeline) -/

/-- An exact decimal number `m / 10^e`.  The values flowing through the
pipeline are parsed from decimal literals, so this represents them without
rounding. -/
structure Dec where
  m : Int
  e : Nat
deriving DecidableEq, Repr

/-- The rational value of a decimal.  (Written with `mkRat` so that it is
kernel-reducible; `Dec.toRat_eq` below identifies it with `m / 10 ^ e`.) -/
def Dec.toRat (d : Dec) : Rat := mkRat d.m (10 ^ d.e)

/-- Kernel-reducible rational multiplication (`qmul_eq` identifies it with
`*`, which Batteries makes irreducible). -/
def qmul (a b : Rat) : Rat := mkRat (a.num * b.num) (a.den * b.den)

/-- Kernel-reducible rational subtraction. -/
def qsub (a b : Rat) : Rat := mkRat (a.num * b.den - b.num * a.den) (a.den * b.den)

/-- Kernel-reducible rational inverse. -/
def qinv (a : Rat) : Rat := mkRat (a.den * a.num.sign) a.num.natAbs

/-- Kernel-reducible rational division. -/
def qdiv (a b : Rat) : Rat := qmul a (qinv b)

/-- IEEE-style float values appearing in the `pct_change_day` column:
finite (kept exact as a rational), the infinities, and NaN (the pandas encoding
of a missing value). -/
inductive PFloat where
  | num (q : Rat)
  | inf
  | ninf
  | nan
deriving DecidableEq, Repr

/-- IEEE-style division as performed elementwise by pandas. -/
def PFloat.div : PFloat → PFloat → PFloat
  | .num a, .num b =>
    if b = 0 then (if 0 < a then .inf else if a < 0 then .ninf else .nan)
    else .num (qdiv a b)
  | .num _, .inf => .num 0
  | .num _, .ninf => .num 0
  | .inf, .num b => if 0 ≤ b then .inf else .ninf
  | .ninf, .num b => if 0 ≤ b then .ninf else .inf
  | _, _ => .nan

/-- IEEE-style subtraction. -/
def PFloat.sub : PFloat → PFloat → PFloat
  | .num a, .num b => .num (qsub a b)
  | .inf, .num _ => .inf
  | .ninf, .num _ => .ninf
  | .num _, .inf => .ninf
  | .num _, .ninf => .inf
  | .inf, .ninf => .inf
  | .ninf, .inf => .ninf
  | _, _ => .nan

/-- IEEE-style multiplication. -/
def PFloat.mul : PFloat → PFloat → PFloat
  | .num a, .num b => .num (qmul a b)
  | .inf, .num b => if 0 < b then .inf else if b < 0 then .ninf else .nan
  | .num a, .inf => if 0 < a then .inf else if a < 0 then .ninf else .nan
  | .ninf, .num b => if 0 < b then .ninf else if b < 0 then .inf else .nan
  | .num a, .ninf => if 0 < a then .ninf else if a < 0 then .inf else .nan
  | .inf, .inf => .inf
  | .ninf, .ninf => .inf
  | .inf, .ninf => .ninf
  | .ninf, .inf => .ninf
  | _, _ => .nan

/-! ### Parsing decimal literals (model of Python `float(...)` / pandas
`read_csv` float parsing, restricted to the plain decimal literals this
pipeline produces and consumes — no exponents, no `inf`/`nan` literals). -/

/-- Digits with an empty string allowed (value 0); rejects non-digits. -/
def parseDigits0 (s : Str) : Option Nat := parseNatAux 0 s

/-- Parse an unsigned decimal literal (`"51"`, `"5.1234"`, `"5."`, `".5"`)
into an exact decimal. -/
def parseUFloat (s : Str) : Option Dec :=
  match splitOnChar '.' s with
  | [a] =>
    if a = [] then none
    else (parseDigits0 a).map fun n => { m := (n : Int), e := 0 }
  | [a, b] =>
    if a = [] ∧ b = [] then none
    else
      (parseDigits0 a).bind fun ia =>
        (parseDigits0 b).map fun fb =>
          { m := ((ia * 10 ^ b.length + fb : Nat) : Int), e := b.length }
  | _ => none

/-- Parse a signed decimal literal. -/
def parseFloat (s : Str) : Option Dec :=
  match s with
  | [] => none
  | c :: rest =>
    if c = '-' then (parseUFloat rest).map fun d => { m := -d.m, e := d.e }
    else if c = '+' then parseUFloat rest
    else parseUFloat (c :: rest)

/-! ### Dates -/

/-- A calendar date as carried by the pipeline after `pd.to_datetime`. -/
structure PDate where
  y : Nat
  mo : Nat
  d : Nat
deriving DecidableEq, Repr

/-- Numeric sort key of a date; on parsed dates (`mo ≤ 12`, `d ≤ 31`) its
order is chronological order. -/
def PDate.key (dt : PDate) : Nat := dt.y * 10000 + dt.mo * 100 + dt.d

/-- Length of a month, with leap-year handling, as validated by pandas. -/
def daysInMonth (y mo : Nat) : Nat :=
  if mo = 2 then (if (y % 4 = 0 ∧ y % 100 ≠ 0) ∨ y % 400 = 0 then 29 else 28)
  else if mo = 4 ∨ mo = 6 ∨ mo = 9 ∨ mo = 11 then 30
  else 31

/-- Model of `pd.to_datetime(s, format="%d/%m/%Y", errors="coerce")` on one
string: strict `DD/MM/YYYY` (day and month 1–2 digits, year up to 4 digits),
validated against the calendar; `none` models `NaT`. -/
def parseDateDDMM (s : Str) : Option PDate :=
  match splitOnChar '/' s with
  | [ds, ms, ys] =>
    if 1 ≤ ds.length ∧ ds.length ≤ 2 ∧ 1 ≤ ms.length ∧ ms.length ≤ 2 ∧
        1 ≤ ys.length ∧ ys.length ≤ 4 then
      (parseNat ds).bind fun d =>
        (parseNat ms).bind fun mo =>
          (parseNat ys).bind fun y =>
            if 1 ≤ mo ∧ mo ≤ 12 ∧ 1 ≤ d ∧ d ≤ daysInMonth y mo then
              some { y := y, mo := mo, d := d }
            else none
    else none
  | _ => none

/-- ISO rendering `YYYY-MM-DD` used by `to_csv` for a midnight datetime
column. -/
def printDateISO (dt : PDate) : Str :=
  padZero 4 (printNat dt.y) ++ '-' :: (padZero 2 (printNat dt.mo) ++ '-' :: padZero 2 (printNat dt.d))

/-- Parse an ISO `YYYY-MM-DD` date back from the CSV. -/
def parseDateISO (s : Str) : Option PDate :=
  match splitOnChar '-' s with
  | [ys, ms, ds] =>
    (parseNat ys).bind fun y =>
      (parseNat ms).bind fun mo =>
        (parseNat ds).map fun d => { y := y, mo := mo, d := d }
  | _ => none

/-! ### The data model of `script.py` -/

/-- The fixed SGS series mapping (`SGS_SERIES` in the source). -/
def SGS_SERIES : List (Str × Nat) :=
  [("USD".toList, 10813), ("EUR".toList, 21619), ("GBP".toList, 21623),
   ("JPY".toList, 21621), ("ARS".toList, 3549), ("CHF".toList, 21625)]

/-- Lookup of a currency code in `SGS_SERIES` (`m in SGS_SERIES` /
`SGS_SERIES[m]` in the source). -/
def lookupSeries (m : Str) : Option Nat :=
  (SGS_SERIES.find? fun p => p.1 == m).map Prod.snd

/-- One raw record of the fetched JSON array: `item.get("data")` and
`item.get("valor")` may each be absent. -/
structure RawItem where
  data : Option Str
  valor : Option Str

/-- A normalized row as appended to `rows` (line 85): the raw date string,
the currency code, and the parsed value. -/
structure NRow where
  date : Str
  currency : Str
  value_brl : Dec
deriving DecidableEq

/-- A row after date parsing (the table between lines 92–94). -/
structure TRow where
  date : PDate
  currency : Str
  value_brl : Dec
deriving DecidableEq

/-- A row of the final table (after lines 97–98). -/
structure ORow where
  date : PDate
  currency : Str
  value_brl : Dec
  prev_value : Option Dec
  pct_change_day : PFloat
deriving DecidableEq

/-- Lines 72–85: normalize one raw record, or drop it (`None`). -/
def normalizeItem (moeda : Str) (item : RawItem) : Option NRow :=
  match item.data, item.valor with
  | some dt, some val =>
    (parseFloat (pyReplace val [','] ['.'])).map fun f =>
      { date := dt, currency := moeda, value_brl := f }
  | _, _ => none

/-- Line 55: split the `--moedas` argument on commas, drop segments that
strip to nothing, strip and upper-case the rest. -/
def parseMoedas (s : Str) : List Str :=
  ((splitOnChar ',' s).filter fun m => pyStrip m ≠ []).map fun m => pyUpper (pyStrip m)

/-- Lines 61–65: the date window, with dates as day numbers (integer day
arithmetic models `date` / `timedelta(days=...)` exactly). -/
def computeWindow (today : Int) (days : Option Int) (years : Int) : Int × Int :=
  match days with
  | some d => (today - d, today)
  | none => (today - 365 * years, today)

/-! ### Transform stage (lines 92–98) -/

/-- Line 98, elementwise on one row:
`(df["value_brl"] / df["prev_value"] - 1) * 100` with pandas/IEEE float
semantics; a missing `prev_value` is NaN. -/
def pctCell (v : Rat) (prev : Option Rat) : PFloat :=
  let p : PFloat := match prev with | none => .nan | some q => .num q
  (((PFloat.num v).div p).sub (.num 1)).mul (.num 100)

/-- The sort relation of line 94: ascending by `(currency, date)`, currency
(a string, ordered lexicographically) as primary key. -/
def rowLe (a b : TRow) : Prop :=
  a.currency < b.currency ∨ (a.currency = b.currency ∧ a.date.key ≤ b.date.key)

instance : DecidableRel rowLe := fun a b =>
  inferInstanceAs (Decidable (a.currency < b.currency ∨ (a.currency = b.currency ∧ a.date.key ≤ b.date.key)))

instance : IsTotal TRow rowLe where
  total a b := by
    rcases lt_trichotomy a.currency b.currency with h | h | h
    · exact Or.inl (Or.inl h)
    · rcases Nat.le_total a.date.key b.date.key with h2 | h2
      · exact Or.inl (Or.inr ⟨h, h2⟩)
      · exact Or.inr (Or.inr ⟨h.symm, h2⟩)
    · exact Or.inr (Or.inl h)

instance : IsTrans TRow rowLe where
  trans a b c hab hbc := by
    rcases hab with h1 | ⟨h1, k1⟩
    · rcases hbc with h2 | ⟨h2, _⟩
      · exact Or.inl (h1.trans h2)
      · exact Or.inl (h2 ▸ h1)
    · rcases hbc with h2 | ⟨h2, k2⟩
      · exact Or.inl (h1 ▸ h2)
      · exact Or.inr ⟨h1.trans h2, k1.trans k2⟩

/-- Line 94: `df.sort_values(["currency", "date"])`. -/
def sortRows (l : List TRow) : List TRow := List.insertionSort rowLe l

/-- Line 97, `df.groupby("currency")["value_brl"].shift(1)` unfolded: the
previous value of a row is the value of the most recent earlier row of the
same currency (`seen` holds the already-visited rows, most recent first). -/
def groupShiftAux (seen : List TRow) : List TRow → List (TRow × Option Dec)
  | [] => []
  | r :: rest =>
    (r, (seen.find? fun s => s.currency == r.currency).map TRow.value_brl)
      :: groupShiftAux (r :: seen) rest

/-- Line 97: per-currency shift over the whole table. -/
def groupShift (l : List TRow) : List (TRow × Option Dec) := groupShiftAux [] l

/-- Lines 92–98: parse dates (dropping failures), sort by
`(currency, date)`, compute `prev_value` and `pct_change_day`. -/
def transform (rows : List NRow) : List ORow :=
  let parsed := rows.filterMap fun r =>
    (parseDateDDMM r.date).map fun dt =>
      { date := dt, currency := r.currency, value_brl := r.value_brl : TRow }
  let sorted := sortRows parsed
  (groupShift sorted).map fun rp =>
    { date := rp.1.date, currency := rp.1.currency, value_brl := rp.1.value_brl,
      prev_value := rp.2,
      pct_change_day := pctCell rp.1.value_brl.toRat (rp.2.map Dec.toRat) }

/-! ### CSV serialization (line 101, `df.to_csv(..., index=False,
encoding="utf-8")`) and re-reading -/

/-- Decimal rendering of a `Dec`, as `to_csv` renders the float64 columns
(always with a decimal point, `-` sign for negatives). -/
def decStr (d : Dec) : Str :=
  let n := d.m.natAbs
  let body := printNat (n / 10 ^ d.e) ++
    '.' :: (if d.e = 0 then ['0'] else padZero d.e (printNat (n % 10 ^ d.e)))
  if d.m < 0 then '-' :: body else body

/-- The `prev_value` cell: NaN is rendered as the empty cell. -/
def prevStr (p : Option Dec) : Str :=
  match p with
  | none => []
  | some d => decStr d

/-- Fixed-precision decimal approximation of a rational (rounding toward
negative infinity at 12 decimal places), modelling the rounding float64 repr
performs when a `pct_change_day` value is printed. -/
def ratApprox (q : Rat) : Dec :=
  let s := qmul q 1000000000000
  { m := Int.fdiv s.num (s.den : Int), e := 12 }

/-- The `pct_change_day` cell: NaN empty, infinities as `inf`/`-inf`,
finite values as a (rounded) decimal. -/
def pctStr (p : PFloat) : Str :=
  match p with
  | .nan => []
  | .inf => ['i', 'n', 'f']
  | .ninf => '-' :: ['i', 'n', 'f']
  | .num q => decStr (ratApprox q)

/-- The header line of the CSV (column order of lines 85, 97, 98). -/
def headerLine : Str := "date,currency,value_brl,prev_value,pct_change_day".toList

/-- One data line of the CSV. -/
def rowLine (r : ORow) : Str :=
  printDateISO r.date ++
    ',' :: (r.currency ++
      ',' :: (decStr r.value_brl ++
        ',' :: (prevStr r.prev_value ++
          ',' :: pctStr r.pct_change_day)))

/-- Join lines with a trailing newline each, as `to_csv` does. -/
def unlines (ls : List Str) : Str := (ls.map fun l => l ++ ['\n']).flatten

/-- Line 101: the full CSV text. -/
def writeCSV (rows : List ORow) : Str := unlines (headerLine :: rows.map rowLine)

/-- Parse the `(date, currency, value_brl)` triple from one CSV data line
(the first three comma-separated fields), as `read_csv` recovers them. -/
def parseLine (l : Str) : Option (PDate × Str × Rat) :=
  match splitOnChar ',' l with
  | f0 :: f1 :: f2 :: _ =>
    (parseDateISO f0).bind fun dt =>
      (parseFloat f2).map fun v => (dt, f1, v.toRat)
  | _ => none

/-- Re-read the CSV: split into lines, drop the header, ignore blank lines,
parse each data line. -/
def readCSV (csv : Str) : List (Option (PDate × Str × Rat)) :=
  ((splitOnChar '\n' csv).drop 1 |>.filter fun l => l ≠ []).map parseLine

/-! ### Output paths and the filesystem calls of lines 100–105 -/

/-- Model of Python `os.path.dirname` (POSIX): everything before the last
`/`, with trailing slashes stripped unless the head is all slashes. -/
def dirnameL (p : Str) : Str :=
  match p.reverse.dropWhile (fun c => c ≠ '/') with
  | [] => []
  | rhead =>
    if rhead.all (fun c => c = '/') then rhead.reverse
    else (rhead.dropWhile (fun c => c = '/')).reverse

/-- Modelled from Python `os.makedirs(path, exist_ok=True)` semantics: on an
empty path it raises `FileNotFoundError` (the underlying mkdir on the empty string fails);
on a nonempty path it succeeds (creating directories as needed). -/
def makedirsModel (p : Str) : Except Str Unit :=
  if p = [] then .error "FileNotFoundError".toList else .ok ()

/-- Line 104: `args.out.replace(".csv", ".xlsx")`. -/
def xlsxPathOf (out : Str) : Str := pyReplace out ".csv".toList ".xlsx".toList

/-! ### The whole run (`main`, lines 52–107) -/

/-- The command-line arguments after `argparse` (line 41–49 defaults are
applied by the caller of `Args.mk`). -/
structure Args where
  moedas : Str
  days : Option Int
  years : Int
  out : Str
  excel : Bool

/-- The observable outcome of a run: which files are written with what
content, or which terminal error class fired. -/
inductive Outcome where
  | invalid (invalidas : List Str) (valid : List Str)
  | noData
  | crash (msg : Str)
  | ok (csvPath : Str) (csvContent : Str) (encoding : Str) (xlsxPath : Option Str)
deriving DecidableEq

/-- The process exit status of each outcome (`sys.exit(1)`, `sys.exit(2)`,
uncaught exception = 1, success = 0). -/
def Outcome.exitCode : Outcome → Nat
  | .invalid _ _ => 1
  | .noData => 2
  | .crash _ => 1
  | .ok _ _ _ _ => 0

/-- The paths of the files a run writes. -/
def Outcome.files : Outcome → List Str
  | .ok p _ _ (some x) => [p, x]
  | .ok p _ _ none => [p]
  | _ => []

/-- Lines 67–85 of `main`: the normalized rows aggregated over all
currencies, given the per-series fetch results. -/
def collectRows (moedas : List Str) (window : Int × Int)
    (fetch : Nat → Int × Int → List RawItem) : List NRow :=
  moedas.flatMap fun moeda =>
    match lookupSeries moeda with
    | some codigo => (fetch codigo window).filterMap (normalizeItem moeda)
    | none => []

/-- `main` (lines 52–107).  `today` stands for `date.today()` as a day
number; `fetch` is the network oracle giving the raw JSON list of each series for
the requested window. -/
def mainRun (args : Args) (today : Int)
    (fetch : Nat → Int × Int → List RawItem) : Outcome :=
  let moedas := parseMoedas args.moedas
  let invalidas := moedas.filter fun m => lookupSeries m = none
  if invalidas ≠ [] then .invalid invalidas (SGS_SERIES.map Prod.fst)
  else
    let window := computeWindow today args.days args.years
    let rows := collectRows moedas window fetch
    if rows = [] then .noData
    else
      let df := transform rows
      match makedirsModel (dirnameL args.out) with
      | .error e => .crash e
      | .ok _ =>
        .ok args.out (writeCSV df) "utf-8".toList
          (if args.excel then some (xlsxPathOf args.out) else none)

/-! ### Spec-side definitions (used only to compare against the code) -/

/-- Modelled from the spec: `prev_value` is "the `value_brl` of the
immediately preceding row with the same `currency`"; absent for the first row of a group.  `prev` carries the immediately preceding row. -/
def specAdjShiftAux (prev : Option TRow) : List TRow → List (TRow × Option Dec)
  | [] => []
  | r :: rest =>
    (r, prev.bind fun p =>
        if p.currency = r.currency then some p.value_brl else none)
      :: specAdjShiftAux (some r) rest

/-- Modelled from the spec: adjacent-row `prev_value` over a sorted table. -/
def specAdjShift (l : List TRow) : List (TRow × Option Dec) := specAdjShiftAux none l

/-- Modelled from the spec: the spreadsheet path obtained by replacing the
TRAILING `.csv` extension only (meaningful when `p` ends in `.csv`). -/
def specXlsxPath (p : Str) : Str := p.take (p.length - 4) ++ ".xlsx".toList

/-- Modelled from the spec (the wording of C10): each comma-separated segment is
stripped and upper-cased, then empty segments are dropped. -/
def specMoedas (s : Str) : List Str :=
  ((splitOnChar ',' s).map fun m => pyUpper (pyStrip m)).filter fun m => m ≠ []

/-- Well-formedness of an exported row for the round-trip claim: the
currency field contains no separator characters (true of every currency
code the pipeline produces). -/
abbrev WFRow (r : ORow) : Prop := ∀ c ∈ r.currency, c ≠ ',' ∧ c ≠ '\n'

/-! ### Concrete fixtures used by witnesses and counterexamples -/

/-- A run requesting only USD, default window and output path. -/
def argsUSD : Args :=
  { moedas := "USD".toList, days := none, years := 2,
    out := "data/cotacoes.csv".toList, excel := false }

/-- A run whose output path is a bare filename (no directory part). -/
def argsBare : Args :=
  { moedas := "USD".toList, days := none, years := 2,
    out := "cotacoes.csv".toList, excel := false }

/-- A run with an unsupported currency code. -/
def argsXXX : Args :=
  { moedas := "XXX".toList, days := none, years := 2,
    out := "data/cotacoes.csv".toList, excel := false }

/-- A run with the spreadsheet flag set. -/
def argsExcel : Args :=
  { moedas := "USD".toList, days := none, years := 2,
    out := "data/cotacoes.csv".toList, excel := true }

/-- A fetch oracle returning no records for any series. -/
def fetchNone : Nat → Int × Int → List RawItem := fun _ _ => []

/-- A fetch oracle returning one record whose date cannot be parsed. -/
def fetchBadDate : Nat → Int × Int → List RawItem :=
  fun _ _ => [{ data := some "not-a-date".toList, valor := some "5,0".toList }]

/-- A fetch oracle returning two consecutive trading days, 5.0 then 5.5. -/
def fetchTwo : Nat → Int × Int → List RawItem :=
  fun _ _ =>
    [{ data := some "01/02/2024".toList, valor := some "5,0".toList },
     { data := some "02/02/2024".toList, valor := some "5,5".toList }]

/-- A fetch oracle whose first value is zero (a zero divisor for the
percent-change of the second day). -/
def fetchZeroThenFive : Nat → Int × Int → List RawItem :=
  fun _ _ =>
    [{ data := some "01/02/2024".toList, valor := some "0".toList },
     { data := some "02/02/2024".toList, valor := some "5".toList }]

/-- Two normalized rows of one currency on consecutive days. -/
def rowsTwo : List NRow :=
  [{ date := "01/02/2024".toList, currency := "USD".toList, value_brl := { m := 50, e := 1 } },
   { date := "02/02/2024".toList, currency := "USD".toList, value_brl := { m := 55, e := 1 } }]

/-- The second row of `transform rowsTwo`. -/
def outTwo : ORow :=
  { date := { y := 2024, mo := 2, d := 2 }, currency := "USD".toList,
    value_brl := { m := 55, e := 1 }, prev_value := some { m := 50, e := 1 },
    pct_change_day := PFloat.num 10 }

/-- A concrete exported table for the round-trip witness. -/
def rowsCSV : List ORow :=
  [{ date := { y := 2024, mo := 2, d := 1 }, currency := "USD".toList,
     value_brl := { m := 50, e := 1 }, prev_value := none, pct_change_day := .nan },
   { date := { y := 2024, mo := 2, d := 2 }, currency := "USD".toList,
     value_brl := { m := 55, e := 1 }, prev_value := some { m := 50, e := 1 },
     pct_change_day := .num 10 }]

/-! ## Lemmas -/

theorem qmul_eq (a b : Rat) : qmul a b = a * b := by
  rw [qmul, Rat.mkRat_eq_div]
  push_cast
  conv_rhs => rw [← Rat.num_div_den a, ← Rat.num_div_den b]
  rw [div_mul_div_comm]

theorem qsub_eq (a b : Rat) : qsub a b = a - b := by
  rw [qsub, Rat.mkRat_eq_div]
  conv_rhs => rw [← Rat.num_div_den a, ← Rat.num_div_den b]
  rw [div_sub_div _ _ (by exact_mod_cast a.den_nz) (by exact_mod_cast b.den_nz)]
  push_cast
  ring_nf

theorem qinv_eq (a : Rat) : qinv a = a⁻¹ := by
  rcases lt_trichotomy a.num 0 with hn | hn | hn
  · rw [qinv, Int.sign_eq_neg_one_of_neg hn, Rat.mkRat_eq_div]
    set k := a.num.natAbs with hk
    have hnum : a.num = -(k : Int) := by omega
    conv_rhs => rw [← Rat.num_div_den a]
    rw [inv_div, hnum]
    push_cast
    rw [mul_neg_one, neg_div, div_neg]
  · rw [qinv, hn, Int.sign_zero]
    have h0 : a = 0 := Rat.num_eq_zero.mp hn
    rw [h0]
    simp [Rat.mkRat_eq_div]
  · rw [qinv, Int.sign_eq_one_of_pos hn, Rat.mkRat_eq_div]
    set k := a.num.natAbs with hk
    have hnum : a.num = (k : Int) := by omega
    conv_rhs => rw [← Rat.num_div_den a]
    rw [inv_div, hnum]
    push_cast
    rw [mul_one]

theorem qdiv_eq (a b : Rat) : qdiv a b = a / b := by
  rw [qdiv, qmul_eq, qinv_eq, div_eq_mul_inv]

theorem Dec.toRat_eq (d : Dec) : d.toRat = (d.m : Rat) / 10 ^ d.e := by
  rw [Dec.toRat, Rat.mkRat_eq_div]
  push_cast
  rfl

/-! ### Digit and number-rendering lemmas -/

/-- A character that renders a decimal digit. -/
abbrev isDigitCh (c : Char) : Prop := 48 ≤ c.toNat ∧ c.toNat ≤ 57

theorem isDigitCh_digitChar (d : Nat) (h : d < 10) : isDigitCh (digitChar d) := by
  interval_cases d <;> decide

theorem charDigit_digitChar (d : Nat) (h : d < 10) : charDigit (digitChar d) = some d := by
  interval_cases d <;> decide

theorem isDigitCh_ne_comma {c : Char} (h : isDigitCh c) : c ≠ ',' := by
  rintro rfl; revert h; decide

theorem isDigitCh_ne_nl {c : Char} (h : isDigitCh c) : c ≠ '\n' := by
  rintro rfl; revert h; decide

theorem isDigitCh_ne_dot {c : Char} (h : isDigitCh c) : c ≠ '.' := by
  rintro rfl; revert h; decide

theorem isDigitCh_ne_dash {c : Char} (h : isDigitCh c) : c ≠ '-' := by
  rintro rfl; revert h; decide

theorem printNatAux_digits :
    ∀ fuel n : Nat, ∀ c ∈ printNatAux fuel n, isDigitCh c := by
  intro fuel
  induction fuel with
  | zero => intro n c hc; simp [printNatAux] at hc
  | succ f ih =>
    intro n c hc
    rw [printNatAux] at hc
    by_cases hn : n = 0
    · simp [hn] at hc
    · simp [hn, List.mem_append] at hc
      rcases hc with hc | hc
      · exact ih _ c hc
      · subst hc; exact isDigitCh_digitChar _ (Nat.mod_lt _ (by norm_num))

theorem printNat_digits (n : Nat) : ∀ c ∈ printNat n, isDigitCh c := by
  intro c hc
  rw [printNat] at hc
  by_cases hn : n = 0
  · simp [hn] at hc; subst hc; decide
  · simp [hn] at hc; exact printNatAux_digits n n c hc

theorem parseNatAux_append (acc : Nat) (A B : Str) :
    parseNatAux acc (A ++ B) =
      match parseNatAux acc A with
      | some a => parseNatAux a B
      | none => none := by
  induction A generalizing acc with
  | nil => simp [parseNatAux]
  | cons c cs ih =>
    simp only [List.cons_append, parseNatAux]
    cases charDigit c with
    | none => rfl
    | some d => exact ih _

theorem parseNatAux_printNatAux :
    ∀ fuel n acc : Nat, n ≤ fuel →
      parseNatAux acc (printNatAux fuel n) =
        some (acc * 10 ^ (printNatAux fuel n).length + n) := by
  intro fuel
  induction fuel with
  | zero =>
    intro n acc hn
    interval_cases n
    simp [printNatAux, parseNatAux]
  | succ f ih =>
    intro n acc hn
    rw [printNatAux]
    by_cases h0 : n = 0
    · simp [h0, parseNatAux]
    · simp only [h0, if_false]
      have hd : n / 10 ≤ f := by omega
      rw [parseNatAux_append, ih (n / 10) acc hd]
      have hlt : n % 10 < 10 := Nat.mod_lt _ (by norm_num)
      simp only [parseNatAux, charDigit_digitChar _ hlt]
      have harith : ∀ X : Nat, (acc * X + n / 10) * 10 + n % 10 = acc * (X * 10) + n := by
        intro X
        calc (acc * X + n / 10) * 10 + n % 10
            = acc * (X * 10) + (10 * (n / 10) + n % 10) := by ring
          _ = acc * (X * 10) + n := by rw [Nat.div_add_mod]
      simp only [List.length_append, List.length_cons, List.length_nil, Nat.zero_add,
        harith, pow_succ]

theorem parseNat_printNat (n : Nat) : parseNat (printNat n) = some n := by
  by_cases h0 : n = 0
  · subst h0; decide
  · have hne : printNat n ≠ [] := by
      rw [printNat]
      simp only [h0, if_false]
      rcases n with _ | k
      · exact absurd rfl h0
      · rw [printNatAux]
        simp
    rw [parseNat, if_neg hne, printNat]
    simp only [h0, if_false]
    rw [parseNatAux_printNatAux n n 0 le_rfl]
    simp

theorem printNatAux_length_le :
    ∀ fuel n k : Nat, n ≤ fuel → n < 10 ^ k → (printNatAux fuel n).length ≤ k := by
  intro fuel
  induction fuel with
  | zero => intro n k _ _; simp [printNatAux]
  | succ f ih =>
    intro n k hn hk
    rw [printNatAux]
    by_cases h0 : n = 0
    · simp [h0]
    · simp only [h0, if_false, List.length_append, List.length_cons, List.length_nil]
      have hk0 : k ≠ 0 := by
        rintro rfl
        simp at hk
        omega
      have h1 : n / 10 < 10 ^ (k - 1) := by
        rw [Nat.div_lt_iff_lt_mul (by norm_num : 0 < 10)]
        calc n < 10 ^ k := hk
        _ = 10 ^ (k - 1) * 10 := by
              conv_lhs => rw [show k = (k - 1) + 1 by omega]
              rw [pow_succ]
      have := ih (n / 10) (k - 1) (by omega) h1
      omega

theorem printNat_length_le (n k : Nat) (hk : 1 ≤ k) (h : n < 10 ^ k) :
    (printNat n).length ≤ k := by
  rw [printNat]
  by_cases h0 : n = 0
  · simp [h0]; omega
  · simp only [h0, if_false]
    exact printNatAux_length_le n n k le_rfl h

theorem parseNatAux_replicate_zero (k : Nat) (l : Str) :
    parseNatAux 0 (List.replicate k '0' ++ l) = parseNatAux 0 l := by
  induction k with
  | zero => simp
  | succ j ih =>
    rw [List.replicate_succ, List.cons_append, parseNatAux]
    have : charDigit '0' = some 0 := by decide
    rw [this]
    simpa using ih

theorem padZero_length (k : Nat) (l : Str) (h : l.length ≤ k) :
    (padZero k l).length = k := by
  simp [padZero]
  omega

theorem parseNat_padZero_printNat (k n : Nat) :
    parseNat (padZero k (printNat n)) = some n := by
  have hne : printNat n ≠ [] := by
    rw [printNat]
    by_cases h0 : n = 0
    · simp [h0]
    · simp only [h0, if_false]
      rcases n with _ | m
      · exact absurd rfl h0
      · rw [printNatAux]; simp
  have hne2 : padZero k (printNat n) ≠ [] := by
    rw [padZero]
    intro hcontra
    rcases List.append_eq_nil.mp hcontra with ⟨_, h2⟩
    exact hne h2
  rw [parseNat, if_neg hne2, padZero, parseNatAux_replicate_zero]
  have := parseNat_printNat n
  rw [parseNat, if_neg hne] at this
  exact this

/-! ### Splitting lemmas -/

theorem splitOnChar_ne_nil (sep : Char) (s : Str) : splitOnChar sep s ≠ [] := by
  induction s with
  | nil => simp [splitOnChar]
  | cons c rest ih =>
    rw [splitOnChar]
    by_cases hc : c = sep
    · simp [hc]
    · simp only [hc, if_false]
      cases h : splitOnChar sep rest with
      | nil => simp
      | cons f fs => simp

theorem splitOnChar_of_not_mem (sep : Char) (s : Str) (h : sep ∉ s) :
    splitOnChar sep s = [s] := by
  induction s with
  | nil => rfl
  | cons c rest ih =>
    have hc : c ≠ sep := fun hcontra => h (hcontra ▸ List.mem_cons_self c rest)
    have hrest : sep ∉ rest := fun hcontra => h (List.mem_cons_of_mem c hcontra)
    rw [splitOnChar]
    simp only [hc, if_false]
    rw [ih hrest]

theorem splitOnChar_append (sep : Char) (a b : Str) (h : sep ∉ a) :
    splitOnChar sep (a ++ sep :: b) = a :: splitOnChar sep b := by
  induction a with
  | nil => simp [splitOnChar]
  | cons c arest ih =>
    have hc : c ≠ sep := fun hcontra => h (hcontra ▸ List.mem_cons_self c arest)
    have harest : sep ∉ arest := fun hcontra => h (List.mem_cons_of_mem c hcontra)
    rw [List.cons_append, splitOnChar]
    simp only [hc, if_false]
    rw [ih harest]

/-! ### Replacement lemmas (for the `.csv` → `.xlsx` path computation) -/

theorem replaceAllF_nil (pat rep : Str) (fuel : Nat) : replaceAllF pat rep fuel [] = [] := by
  cases fuel <;> rfl

theorem replaceAllF_succ_cons (pat rep : Str) (f : Nat) (c : Char) (rest : Str) :
    replaceAllF pat rep (f + 1) (c :: rest) =
      if pat ≠ [] ∧ pat.isPrefixOf (c :: rest) then
        rep ++ replaceAllF pat rep f ((c :: rest).drop pat.length)
      else c :: replaceAllF pat rep f rest := rfl

theorem replaceAllF_append_pat (pat rep : Str) (hp : pat ≠ []) :
    ∀ stem : Str, ∀ fuel : Nat, stem.length + pat.length ≤ fuel →
      (∀ i, i < stem.length → ¬ (pat.isPrefixOf ((stem ++ pat).drop i) = true)) →
      replaceAllF pat rep fuel (stem ++ pat) = stem ++ rep := by
  intro stem
  induction stem with
  | nil =>
    intro fuel hf h
    obtain ⟨c, cs, hpat⟩ : ∃ c cs, pat = c :: cs := by
      cases pat with
      | nil => exact absurd rfl hp
      | cons c cs => exact ⟨c, cs, rfl⟩
    cases fuel with
    | zero => simp [hpat] at hf
    | succ f =>
      have hpre : pat.isPrefixOf pat = true :=
        List.isPrefixOf_iff_prefix.mpr (List.prefix_refl pat)
      simp only [List.nil_append]
      rw [hpat, replaceAllF_succ_cons,
        if_pos ⟨by simp, by rw [← hpat]; exact hpre⟩, ← hpat,
        show pat.drop pat.length = [] from List.drop_length _, replaceAllF_nil]
      simp
  | cons c st ih =>
    intro fuel hf h
    cases fuel with
    | zero =>
      exfalso
      have : 1 ≤ pat.length := by
        cases pat with
        | nil => exact absurd rfl hp
        | cons x xs => simp
      simp only [List.length_cons] at hf
      omega
    | succ f =>
      rw [List.cons_append, replaceAllF_succ_cons]
      have h0 := h 0 (by simp)
      simp only [List.drop_zero, List.cons_append] at h0
      rw [if_neg (fun hcond => h0 hcond.2)]
      rw [ih f (by simp only [List.length_cons] at hf; omega)
        (fun i hi => by
          have := h (i + 1) (by simp only [List.length_cons]; omega)
          simpa using this)]
      simp

theorem pyReplace_append_pat (stem pat rep : Str) (hp : pat ≠ [])
    (h : ∀ i, i < stem.length → ¬ (pat.isPrefixOf ((stem ++ pat).drop i) = true)) :
    pyReplace (stem ++ pat) pat rep = stem ++ rep := by
  rw [pyReplace]
  exact replaceAllF_append_pat pat rep hp stem (stem ++ pat).length (by simp) h

/-! ### Sorting and per-group shift lemmas -/

theorem rowLe_currency_le {a b : TRow} (h : rowLe a b) : a.currency ≤ b.currency := by
  rcases h with h | ⟨h, _⟩
  · exact le_of_lt h
  · exact le_of_eq h

theorem find?_currency_of_sorted (tail : List TRow) (p r : TRow)
    (hsort : List.Sorted rowLe ((p :: tail).reverse ++ [r]))
    (hpc : p.currency ≠ r.currency) :
    (tail.find? fun s => s.currency == r.currency) = none := by
  rw [List.find?_eq_none]
  intro x hx
  simp only [beq_iff_eq]
  intro hxc
  have hLlist : (p :: tail).reverse ++ [r] = (tail.reverse ++ [p]) ++ [r] := by
    simp
  rw [hLlist] at hsort
  rw [List.Sorted, List.pairwise_append] at hsort
  obtain ⟨hfirst, _, hcross⟩ := hsort
  have hpr : rowLe p r := by
    exact hcross p (by simp) r (by simp)
  rw [List.pairwise_append] at hfirst
  obtain ⟨_, _, hcross2⟩ := hfirst
  have hxp : rowLe x p := hcross2 x (by simp [hx]) p (by simp)
  have h1 : x.currency ≤ p.currency := rowLe_currency_le hxp
  have h2 : p.currency ≤ r.currency := rowLe_currency_le hpr
  rw [hxc] at h1
  exact hpc (le_antisymm h2 h1)

theorem groupShiftAux_eq_adj :
    ∀ (rest seen : List TRow),
      List.Sorted rowLe (seen.reverse ++ rest) →
      groupShiftAux seen rest = specAdjShiftAux seen.head? rest := by
  intro rest
  induction rest with
  | nil => intro seen _; rfl
  | cons r rs ih =>
    intro seen hsort
    rw [groupShiftAux, specAdjShiftAux]
    have hsub : List.Sorted rowLe (seen.reverse ++ [r]) := by
      have hr : List.Sublist [r] (r :: rs) :=
        List.cons_sublist_cons.mpr (List.nil_sublist rs)
      have hpre : List.Sublist (seen.reverse ++ [r]) (seen.reverse ++ r :: rs) :=
        List.Sublist.append_left hr seen.reverse
      exact List.Pairwise.sublist hpre hsort
    have hfirst :
        ((seen.find? fun s => s.currency == r.currency).map TRow.value_brl) =
          seen.head?.bind fun p =>
            if p.currency = r.currency then some p.value_brl else none := by
      cases seen with
      | nil => rfl
      | cons p tail =>
        by_cases hpc : p.currency = r.currency
        · simp [List.find?, hpc]
        · rw [List.find?]
          have : (p.currency == r.currency) = false := by
            simp [hpc]
          rw [this]
          rw [find?_currency_of_sorted tail p r hsub hpc]
          simp [hpc]
    rw [hfirst]
    have hnext : List.Sorted rowLe ((r :: seen).reverse ++ rs) := by
      have : (r :: seen).reverse ++ rs = seen.reverse ++ r :: rs := by simp
      rw [this]
      exact hsort
    rw [ih (r :: seen) hnext]
    rfl

theorem groupShift_eq_adj (l : List TRow) (h : List.Sorted rowLe l) :
    groupShift l = specAdjShift l := by
  rw [groupShift, specAdjShift]
  exact groupShiftAux_eq_adj l [] (by simpa)

theorem sortRows_sorted (l : List TRow) : List.Sorted rowLe (sortRows l) :=
  List.sorted_insertionSort rowLe l

/-! ### Character-set lemmas for the rendered CSV fields -/

theorem padZero_printNat_digits (k n : Nat) :
    ∀ c ∈ padZero k (printNat n), isDigitCh c := by
  intro c hc
  rw [padZero, List.mem_append] at hc
  rcases hc with hc | hc
  · rw [List.eq_of_mem_replicate hc]; decide
  · exact printNat_digits n c hc

theorem decStr_chars (d : Dec) :
    ∀ c ∈ decStr d, isDigitCh c ∨ c = '.' ∨ c = '-' := by
  intro c hc
  rw [decStr] at hc
  have hbody : ∀ x ∈ (printNat (d.m.natAbs / 10 ^ d.e) ++
      '.' :: (if d.e = 0 then ['0'] else padZero d.e (printNat (d.m.natAbs % 10 ^ d.e)))),
      isDigitCh x ∨ x = '.' ∨ x = '-' := by
    intro x hx
    rw [List.mem_append] at hx
    rcases hx with hx | hx
    · exact Or.inl (printNat_digits _ x hx)
    · rcases List.mem_cons.mp hx with hx | hx
      · exact Or.inr (Or.inl hx)
      · by_cases he : d.e = 0
        · simp only [he, if_true] at hx
          rcases List.mem_singleton.mp hx with rfl
          exact Or.inl (by decide)
        · simp only [he, if_false] at hx
          exact Or.inl (padZero_printNat_digits _ _ x hx)
  by_cases hm : d.m < 0
  · simp only [hm, if_true] at hc
    rcases List.mem_cons.mp hc with hc | hc
    · exact Or.inr (Or.inr hc)
    · exact hbody c hc
  · simp only [hm, if_false] at hc
    exact hbody c hc

theorem printDateISO_chars (dt : PDate) :
    ∀ c ∈ printDateISO dt, isDigitCh c ∨ c = '-' := by
  intro c hc
  rw [printDateISO, List.mem_append] at hc
  rcases hc with hc | hc
  · exact Or.inl (padZero_printNat_digits _ _ c hc)
  · rcases List.mem_cons.mp hc with hc | hc
    · exact Or.inr hc
    · rw [List.mem_append] at hc
      rcases hc with hc | hc
      · exact Or.inl (padZero_printNat_digits _ _ c hc)
      · rcases List.mem_cons.mp hc with hc | hc
        · exact Or.inr hc
        · exact Or.inl (padZero_printNat_digits _ _ c hc)

theorem prevStr_chars (p : Option Dec) :
    ∀ c ∈ prevStr p, isDigitCh c ∨ c = '.' ∨ c = '-' := by
  intro c hc
  cases p with
  | none => simp [prevStr] at hc
  | some d => exact decStr_chars d c hc

theorem pctStr_chars (p : PFloat) :
    ∀ c ∈ pctStr p, isDigitCh c ∨ c = '.' ∨ c = '-' ∨ c = 'i' ∨ c = 'n' ∨ c = 'f' := by
  intro c hc
  cases p with
  | nan => simp [pctStr] at hc
  | inf =>
    rw [pctStr] at hc
    simp only [List.mem_cons, List.not_mem_nil, or_false] at hc
    rcases hc with rfl | rfl | rfl <;> decide
  | ninf =>
    rw [pctStr] at hc
    simp only [List.mem_cons, List.not_mem_nil, or_false] at hc
    rcases hc with rfl | rfl | rfl | rfl <;> decide
  | num q =>
    rcases decStr_chars (ratApprox q) c hc with h | h | h
    · exact Or.inl h
    · exact Or.inr (Or.inl h)
    · exact Or.inr (Or.inr (Or.inl h))

theorem printDateISO_comma_free (dt : PDate) : ',' ∉ printDateISO dt := by
  intro hc
  rcases printDateISO_chars dt ',' hc with h | h
  · exact isDigitCh_ne_comma h rfl
  · exact absurd h (by decide)

theorem decStr_comma_free (d : Dec) : ',' ∉ decStr d := by
  intro hc
  rcases decStr_chars d ',' hc with h | h | h
  · exact isDigitCh_ne_comma h rfl
  · exact absurd h (by decide)
  · exact absurd h (by decide)

theorem rowLine_nl_free (r : ORow) (h : WFRow r) : '\n' ∉ rowLine r := by
  intro hc
  rw [rowLine] at hc
  rw [List.mem_append] at hc
  rcases hc with hc | hc
  · rcases printDateISO_chars _ _ hc with h1 | h1
    · exact isDigitCh_ne_nl h1 rfl
    · exact absurd h1 (by decide)
  · rcases List.mem_cons.mp hc with hc | hc
    · exact absurd hc (by decide)
    · rw [List.mem_append] at hc
      rcases hc with hc | hc
      · exact absurd rfl (h '\n' hc).2
      · rcases List.mem_cons.mp hc with hc | hc
        · exact absurd hc (by decide)
        · rw [List.mem_append] at hc
          rcases hc with hc | hc
          · rcases decStr_chars _ _ hc with h1 | h1 | h1
            · exact isDigitCh_ne_nl h1 rfl
            · exact absurd h1 (by decide)
            · exact absurd h1 (by decide)
          · rcases List.mem_cons.mp hc with hc | hc
            · exact absurd hc (by decide)
            · rw [List.mem_append] at hc
              rcases hc with hc | hc
              · rcases prevStr_chars _ _ hc with h1 | h1 | h1
                · exact isDigitCh_ne_nl h1 rfl
                · exact absurd h1 (by decide)
                · exact absurd h1 (by decide)
              · rcases List.mem_cons.mp hc with hc | hc
                · exact absurd hc (by decide)
                · rcases pctStr_chars _ _ hc with h1 | h1 | h1 | h1 | h1 | h1
                  · exact isDigitCh_ne_nl h1 rfl
                  all_goals exact absurd h1 (by decide)

/-! ### Field round-trip lemmas -/

theorem isDigitCh_ne_plus {c : Char} (h : isDigitCh c) : c ≠ '+' := by
  rintro rfl; revert h; decide

theorem printNat_ne_nil (n : Nat) : printNat n ≠ [] := by
  rw [printNat]
  by_cases h0 : n = 0
  · simp [h0]
  · simp only [h0, if_false]
    rcases n with _ | m
    · exact absurd rfl h0
    · rw [printNatAux]; simp

theorem parseDigits0_printNat (n : Nat) : parseDigits0 (printNat n) = some n := by
  have := parseNat_printNat n
  rw [parseNat, if_neg (printNat_ne_nil n)] at this
  exact this

theorem parseDigits0_padZero_printNat (k n : Nat) :
    parseDigits0 (padZero k (printNat n)) = some n := by
  rw [parseDigits0, padZero, parseNatAux_replicate_zero]
  exact parseDigits0_printNat n

theorem dash_not_mem_padZero_printNat (k n : Nat) : '-' ∉ padZero k (printNat n) := by
  intro hc
  exact isDigitCh_ne_dash (padZero_printNat_digits k n '-' hc) rfl

theorem parseDateISO_printDateISO (dt : PDate) :
    parseDateISO (printDateISO dt) = some dt := by
  rw [printDateISO, parseDateISO]
  rw [splitOnChar_append '-' _ _ (dash_not_mem_padZero_printNat 4 dt.y)]
  rw [splitOnChar_append '-' _ _ (dash_not_mem_padZero_printNat 2 dt.mo)]
  rw [splitOnChar_of_not_mem '-' _ (dash_not_mem_padZero_printNat 2 dt.d)]
  simp [parseNat_padZero_printNat]

theorem dot_not_mem_printNat (n : Nat) : '.' ∉ printNat n := by
  intro hc
  exact isDigitCh_ne_dot (printNat_digits n '.' hc) rfl

theorem parseUFloat_decBody (n e : Nat) :
    parseUFloat (printNat (n / 10 ^ e) ++ '.' ::
        (if e = 0 then ['0'] else padZero e (printNat (n % 10 ^ e)))) =
      some (if e = 0 then { m := ((n * 10 : Nat) : Int), e := 1 }
            else { m := (n : Int), e := e }) := by
  have hdotfrac : '.' ∉ (if e = 0 then ['0'] else padZero e (printNat (n % 10 ^ e))) := by
    by_cases he : e = 0
    · simp [he]
    · simp only [he, if_false]
      intro hc
      exact isDigitCh_ne_dot (padZero_printNat_digits _ _ '.' hc) rfl
  rw [parseUFloat, splitOnChar_append '.' _ _ (dot_not_mem_printNat _),
    splitOnChar_of_not_mem '.' _ hdotfrac]
  simp only [if_neg (fun hcontra : printNat (n / 10 ^ e) = [] ∧ _ =>
    printNat_ne_nil _ hcontra.1)]
  rw [parseDigits0_printNat]
  by_cases he : e = 0
  · subst he
    simp only [if_true]
    have h1 : parseDigits0 ['0'] = some 0 := by decide
    rw [h1]
    simp [Nat.div_one, pow_zero]
  · simp only [he, if_false]
    rw [parseDigits0_padZero_printNat]
    have hlen : (padZero e (printNat (n % 10 ^ e))).length = e := by
      apply padZero_length
      apply printNat_length_le _ _ (by omega)
      exact Nat.mod_lt _ (pow_pos (by norm_num) e)
    have hdm : n / 10 ^ e * 10 ^ e + n % 10 ^ e = n := by
      rw [Nat.mul_comm]; exact Nat.div_add_mod n (10 ^ e)
    simp [hlen]
    exact_mod_cast hdm

theorem parseFloat_dash (rest : Str) :
    parseFloat ('-' :: rest) = (parseUFloat rest).map fun dd => { m := -dd.m, e := dd.e } := by
  simp [parseFloat]

theorem parseFloat_digit_head (c : Char) (rest : Str) (h1 : c ≠ '-') (h2 : c ≠ '+') :
    parseFloat (c :: rest) = parseUFloat (c :: rest) := by
  simp only [parseFloat]
  rw [if_neg h1, if_neg h2]

theorem toRat_body (n e : Nat) :
    Dec.toRat (if e = 0 then { m := ((n * 10 : Nat) : Int), e := 1 }
               else { m := (n : Int), e := e }) =
      Dec.toRat { m := (n : Int), e := e } := by
  by_cases he : e = 0
  · subst he
    rw [if_pos rfl, Dec.toRat_eq, Dec.toRat_eq]
    push_cast
    rw [pow_one, pow_zero, div_one]
    exact mul_div_cancel_right₀ _ (by norm_num)
  · rw [if_neg he]

theorem toRat_neg (dd : Dec) : Dec.toRat { m := -dd.m, e := dd.e } = -Dec.toRat dd := by
  rw [Dec.toRat_eq, Dec.toRat_eq]
  push_cast
  rw [neg_div]

theorem parseFloat_decStr (d : Dec) :
    (parseFloat (decStr d)).map Dec.toRat = some d.toRat := by
  have hbody := parseUFloat_decBody d.m.natAbs d.e
  by_cases hm : d.m < 0
  · simp only [decStr, hm, if_true]
    rw [parseFloat_dash, hbody]
    simp only [Option.map_some']
    rw [toRat_neg, toRat_body]
    congr 1
    rw [Dec.toRat_eq, Dec.toRat_eq]
    have hmn : d.m = -(d.m.natAbs : Int) := by omega
    rw [hmn]
    push_cast
    rw [neg_div]
    simp [abs_neg, abs_abs]
  · have hne := printNat_ne_nil (d.m.natAbs / 10 ^ d.e)
    obtain ⟨c0, t0, hpn⟩ := List.exists_cons_of_ne_nil hne
    have hc0 : isDigitCh c0 :=
      printNat_digits _ c0 (by rw [hpn]; exact List.mem_cons_self _ _)
    simp only [decStr, hm, if_false]
    rw [hpn, List.cons_append]
    rw [parseFloat_digit_head c0 _ (isDigitCh_ne_dash hc0) (isDigitCh_ne_plus hc0)]
    rw [← List.cons_append, ← hpn, hbody]
    simp only [Option.map_some']
    rw [toRat_body]
    congr 1
    rw [Dec.toRat_eq, Dec.toRat_eq]
    have hmn : (d.m.natAbs : Int) = d.m := by omega
    rw [hmn]

/-! ### Line- and file-level round-trip lemmas -/

theorem parseLine_rowLine (r : ORow) (h : WFRow r) :
    parseLine (rowLine r) = some (r.date, r.currency, r.value_brl.toRat) := by
  rw [rowLine, parseLine]
  rw [splitOnChar_append ',' _ _ (printDateISO_comma_free r.date)]
  rw [splitOnChar_append ',' _ _ (fun hc => (h ',' hc).1 rfl)]
  rw [splitOnChar_append ',' _ _ (decStr_comma_free r.value_brl)]
  obtain ⟨dv, hdv, hrat⟩ :
      ∃ dv, parseFloat (decStr r.value_brl) = some dv ∧ Dec.toRat dv = r.value_brl.toRat := by
    have := parseFloat_decStr r.value_brl
    rcases Option.map_eq_some'.mp this with ⟨dv, h1, h2⟩
    exact ⟨dv, h1, h2⟩
  simp [parseDateISO_printDateISO, hdv, hrat]

theorem rowLine_ne_nil (r : ORow) : rowLine r ≠ [] := by
  simp [rowLine]

theorem splitNL_unlines (ls : List Str) (h : ∀ l ∈ ls, '\n' ∉ l) :
    splitOnChar '\n' (unlines ls) = ls ++ [[]] := by
  induction ls with
  | nil => rfl
  | cons l ls ih =>
    have hstep : unlines (l :: ls) = l ++ '\n' :: unlines ls := by
      simp [unlines]
    rw [hstep, splitOnChar_append '\n' _ _ (h l (List.mem_cons_self _ _)),
      ih (fun x hx => h x (List.mem_cons_of_mem _ hx))]
    rfl

theorem readCSV_writeCSV (rows : List ORow) (h : ∀ r ∈ rows, WFRow r) :
    readCSV (writeCSV rows) =
      rows.map fun r => some (r.date, r.currency, r.value_brl.toRat) := by
  rw [writeCSV, readCSV]
  rw [splitNL_unlines _ (by
    intro l hl
    rcases List.mem_cons.mp hl with rfl | hl
    · decide
    · rcases List.mem_map.mp hl with ⟨r, hr, rfl⟩
      exact rowLine_nl_free r (h r hr))]
  rw [List.cons_append, List.drop_succ_cons, List.drop_zero]
  rw [List.filter_append]
  have h2 : (List.filter (fun l => decide (l ≠ [])) [([] : Str)]) = [] := by decide
  have h3 : (rows.map rowLine).filter (fun l => decide (l ≠ [])) = rows.map rowLine := by
    rw [List.filter_eq_self]
    intro a ha
    rcases List.mem_map.mp ha with ⟨r, _, rfl⟩
    simpa using rowLine_ne_nil r
  rw [h2, h3, List.append_nil, List.map_map]
  apply List.map_congr_left
  intro r hr
  exact parseLine_rowLine r (h r hr)

/-! ### Percent-change cell lemmas -/

theorem pctCell_none (v : Rat) : pctCell v none = PFloat.nan := rfl

theorem pctCell_some (v p : Rat) (hp : p ≠ 0) :
    pctCell v (some p) = PFloat.num ((v / p - 1) * 100) := by
  rw [pctCell]
  simp only [PFloat.div, if_neg hp, PFloat.sub, PFloat.mul]
  rw [qdiv_eq, qsub_eq, qmul_eq]

theorem pctCell_zero_pos (v : Rat) (hv : 0 < v) : pctCell v (some 0) = PFloat.inf := by
  rw [pctCell]
  simp only [PFloat.div, if_pos rfl, if_pos hv, PFloat.sub, PFloat.mul]
  norm_num

theorem transform_pct (rows : List NRow) (out : ORow) (hout : out ∈ transform rows) :
    out.pct_change_day = pctCell out.value_brl.toRat (out.prev_value.map Dec.toRat) := by
  simp only [transform] at hout
  rcases List.mem_map.mp hout with ⟨rp, _, rfl⟩
  rfl

/-! ### Unfolding lemmas for `mainRun` -/

theorem mainRun_invalid (args : Args) (today : Int)
    (fetch : Nat → Int × Int → List RawItem)
    (h : (parseMoedas args.moedas).filter (fun m => lookupSeries m = none) ≠ []) :
    mainRun args today fetch =
      .invalid ((parseMoedas args.moedas).filter fun m => lookupSeries m = none)
        (SGS_SERIES.map Prod.fst) := by
  simp only [mainRun]
  rw [if_pos h]

theorem mainRun_noData (args : Args) (today : Int)
    (fetch : Nat → Int × Int → List RawItem)
    (h1 : (parseMoedas args.moedas).filter (fun m => lookupSeries m = none) = [])
    (h2 : collectRows (parseMoedas args.moedas)
      (computeWindow today args.days args.years) fetch = []) :
    mainRun args today fetch = .noData := by
  simp only [mainRun]
  rw [if_neg (by simp [h1]), if_pos h2]

theorem mainRun_ok (args : Args) (today : Int)
    (fetch : Nat → Int × Int → List RawItem)
    (h1 : (parseMoedas args.moedas).filter (fun m => lookupSeries m = none) = [])
    (h2 : collectRows (parseMoedas args.moedas)
      (computeWindow today args.days args.years) fetch ≠ [])
    (h3 : dirnameL args.out ≠ []) :
    mainRun args today fetch =
      .ok args.out
        (writeCSV (transform (collectRows (parseMoedas args.moedas)
          (computeWindow today args.days args.years) fetch)))
        "utf-8".toList
        (if args.excel then some (xlsxPathOf args.out) else none) := by
  simp only [mainRun]
  rw [if_neg (by simp [h1]), if_neg h2]
  simp only [makedirsModel, if_neg h3]

/-! ## Claim theorems -/

/-- C1 (counterexample): the claim "whenever the table is empty after
normalization AND date-parsing the run exits 2 and writes no file" is false:
with one fetched record whose date fails to parse, the table is empty after
date-parsing, yet the run exits 0 and writes the CSV — the guard at line 87
of `script.py` runs BEFORE date parsing (lines 92–93). -/
theorem C1_counterexample :
    transform (collectRows (parseMoedas argsUSD.moedas)
        (computeWindow 0 argsUSD.days argsUSD.years) fetchBadDate) = [] ∧
    mainRun argsUSD 0 fetchBadDate ≠ Outcome.noData ∧
    (mainRun argsUSD 0 fetchBadDate).exitCode = 0 ∧
    (mainRun argsUSD 0 fetchBadDate).files ≠ [] := by decide

/-- C1 (amended): if the aggregated row list is empty after NORMALIZATION
(before date-parsing) — in particular when the fetch result of every requested currency is empty — the run reports no data, exits with status 2, and writes
no output file. -/
theorem C1_empty_guard (args : Args) (today : Int)
    (fetch : Nat → Int × Int → List RawItem)
    (h1 : (parseMoedas args.moedas).filter (fun m => lookupSeries m = none) = [])
    (h2 : collectRows (parseMoedas args.moedas)
      (computeWindow today args.days args.years) fetch = []) :
    mainRun args today fetch = Outcome.noData ∧
    (mainRun args today fetch).exitCode = 2 ∧
    (mainRun args today fetch).files = [] := by
  have h := mainRun_noData args today fetch h1 h2
  exact ⟨h, by rw [h]; rfl, by rw [h]; rfl⟩

theorem C1_empty_guard_witness :
    (parseMoedas argsUSD.moedas).filter (fun m => lookupSeries m = none) = [] ∧
    collectRows (parseMoedas argsUSD.moedas)
      (computeWindow 0 argsUSD.days argsUSD.years) fetchNone = [] ∧
    mainRun argsUSD 0 fetchNone = Outcome.noData ∧
    (mainRun argsUSD 0 fetchNone).exitCode = 2 ∧
    (mainRun argsUSD 0 fetchNone).files = [] :=
  ⟨by decide, by decide, C1_empty_guard argsUSD 0 fetchNone (by decide) (by decide)⟩

/-- C2 (counterexample): the claim "pct_change_day is undefined/absent
whenever prev_value is zero (the division is never performed with a zero
divisor)" is false: with values 0 then 5 on consecutive days, the second
row has prev_value 0 and the division IS performed, giving +infinity, not
an absent cell. -/
theorem C2_counterexample :
    ∃ out ∈ transform (collectRows ["USD".toList] (0, 0) fetchZeroThenFive),
      out.prev_value.map Dec.toRat = some 0 ∧
      out.pct_change_day ≠ PFloat.nan ∧ out.pct_change_day = PFloat.inf := by decide

/-- C2 (amended): in every row of the final table, `pct_change_day` equals
`(value_brl / prev_value − 1) × 100` when `prev_value` is present and
non-zero, is absent (NaN) when `prev_value` is absent, and when
`prev_value` is present but zero the division is performed with IEEE
semantics, giving +infinity for a positive `value_brl`. -/
theorem C2_pct_semantics (rows : List NRow) (out : ORow)
    (hout : out ∈ transform rows) :
    (out.prev_value = none → out.pct_change_day = PFloat.nan) ∧
    (∀ p : Dec, out.prev_value = some p → p.toRat ≠ 0 →
      out.pct_change_day = PFloat.num ((out.value_brl.toRat / p.toRat - 1) * 100)) ∧
    (∀ p : Dec, out.prev_value = some p → p.toRat = 0 → 0 < out.value_brl.toRat →
      out.pct_change_day = PFloat.inf) := by
  have hpct := transform_pct rows out hout
  refine ⟨fun hnone => ?_, fun p hp hpz => ?_, fun p hp hpz hv => ?_⟩
  · rw [hpct, hnone]; rfl
  · rw [hpct, hp]
    simp only [Option.map_some']
    exact pctCell_some _ _ hpz
  · rw [hpct, hp]
    simp only [Option.map_some']
    rw [hpz]
    exact pctCell_zero_pos _ hv

theorem C2_pct_semantics_witness :
    outTwo ∈ transform rowsTwo ∧
    outTwo.prev_value = some { m := 50, e := 1 } ∧
    Dec.toRat { m := 50, e := 1 } ≠ 0 ∧
    outTwo.pct_change_day =
      PFloat.num ((outTwo.value_brl.toRat / Dec.toRat { m := 50, e := 1 } - 1) * 100) :=
  ⟨by decide, by decide, by decide,
    (C2_pct_semantics rowsTwo outTwo (by decide)).2.1
      { m := 50, e := 1 } (by decide) (by decide)⟩

/-- C3: every code of the fixed set is accepted by the lookup; when any
requested code is outside the set, the run produces the invalid-input
outcome carrying exactly the offending codes and the valid set, exits with
status 1, and is independent of the fetch oracle (no network request can
influence it). -/
theorem C3_currency_validation :
    (∀ m ∈ SGS_SERIES.map Prod.fst, lookupSeries m ≠ none) ∧
    (∀ (args : Args) (today : Int)
       (fetch fetchB : Nat → Int × Int → List RawItem),
      (parseMoedas args.moedas).filter (fun m => lookupSeries m = none) ≠ [] →
      mainRun args today fetch =
        Outcome.invalid
          ((parseMoedas args.moedas).filter fun m => lookupSeries m = none)
          (SGS_SERIES.map Prod.fst) ∧
      (mainRun args today fetch).exitCode = 1 ∧
      mainRun args today fetch = mainRun args today fetchB) := by
  constructor
  · decide
  · intro args today fetch fetchB h
    have ha := mainRun_invalid args today fetch h
    have hb := mainRun_invalid args today fetchB h
    exact ⟨ha, by rw [ha]; rfl, by rw [ha, hb]⟩

theorem C3_currency_validation_witness :
    ((parseMoedas argsXXX.moedas).filter (fun m => lookupSeries m = none) ≠ []) ∧
    (mainRun argsXXX 0 fetchNone =
      Outcome.invalid
        ((parseMoedas argsXXX.moedas).filter fun m => lookupSeries m = none)
        (SGS_SERIES.map Prod.fst) ∧
     (mainRun argsXXX 0 fetchNone).exitCode = 1 ∧
     mainRun argsXXX 0 fetchNone = mainRun argsXXX 0 fetchTwo) :=
  ⟨by decide, C3_currency_validation.2 argsXXX 0 fetchNone fetchTwo (by decide)⟩

/-- C4: after sorting ascending by (currency, date), the per-group shift of
line 97 (`groupShift`, whose `prev_value` is the most recent earlier row of
the same currency) coincides with the adjacent-row description of the spec
(`specAdjShift`): the `prev_value` of each row is the value of the immediately
preceding row when it has the same currency and absent otherwise — so a
`prev_value` is never taken from a different currency, whatever the raw
interleaving was. -/
theorem C4_prev_within_group (l : List TRow) :
    groupShift (sortRows l) = specAdjShift (sortRows l) :=
  groupShift_eq_adj _ (sortRows_sorted l)

/-- C5: the window end is the single `today` value; with a day-count the
start is exactly `today − d` regardless of the year-count, and without one
the start is `today − 365 × years`. -/
theorem C5_window (today years d : Int) :
    computeWindow today (some d) years = (today - d, today) ∧
    computeWindow today none years = (today - 365 * years, today) ∧
    (∀ y2 : Int, computeWindow today (some d) y2 = computeWindow today (some d) years) :=
  ⟨rfl, rfl, fun _ => rfl⟩

/-- C6: the normalizer drops a record whose date or value field is absent;
otherwise it replaces commas by periods in the value, parses it as a float
(dropping the record when parsing fails), and keeps the raw date string; in
particular the value string `"5,1234"` yields `value_brl = 5.1234`
(= 51234/10000). -/
theorem C6_normalizer :
    (∀ (mo : Str) (item : RawItem), item.data = none → normalizeItem mo item = none) ∧
    (∀ (mo : Str) (item : RawItem), item.valor = none → normalizeItem mo item = none) ∧
    (∀ (mo dt val : Str),
      normalizeItem mo { data := some dt, valor := some val } =
        (parseFloat (pyReplace val [','] ['.'])).map fun f =>
          { date := dt, currency := mo, value_brl := f }) ∧
    (∀ (mo dt : Str),
      (normalizeItem mo { data := some dt, valor := some "5,1234".toList }).map
          (fun r => r.value_brl.toRat) = some (mkRat 51234 10000)) := by
  refine ⟨?_, ?_, ?_, ?_⟩
  · intro mo item h
    obtain ⟨dta, vala⟩ := item
    simp only at h
    subst h
    cases vala <;> rfl
  · intro mo item h
    obtain ⟨dta, vala⟩ := item
    simp only at h
    subst h
    cases dta <;> rfl
  · intro mo dt val
    rfl
  · intro mo dt
    rfl

theorem C6_normalizer_witness :
    RawItem.data { data := none, valor := some "5".toList } = none ∧
    normalizeItem "USD".toList { data := none, valor := some "5".toList } = none ∧
    (normalizeItem "USD".toList
        { data := some "01/02/2024".toList, valor := some "5,1234".toList }).map
      (fun r => r.value_brl.toRat) = some (mkRat 51234 10000) :=
  ⟨rfl, C6_normalizer.1 "USD".toList _ rfl,
    C6_normalizer.2.2.2 "USD".toList "01/02/2024".toList⟩

/-- C7 (counterexample): the claim "missing parent directories are created —
including when the output path is a bare filename" is false: with the bare
filename `cotacoes.csv`, `os.path.dirname` yields the empty string,
`os.makedirs` on the empty string raises `FileNotFoundError`, the run crashes (exit status
not 0) and writes no file at all. -/
theorem C7_counterexample :
    mainRun argsBare 0 fetchTwo = Outcome.crash "FileNotFoundError".toList ∧
    (mainRun argsBare 0 fetchTwo).files = [] ∧
    (mainRun argsBare 0 fetchTwo).exitCode ≠ 0 := by decide

/-- C7 (amended): when the output path has a nonempty directory part (and
the run reaches the export stage), the CSV is written at exactly the
configured path, with UTF-8 encoding and the header
`date,currency,value_brl,prev_value,pct_change_day` first. -/
theorem C7_export (args : Args) (today : Int)
    (fetch : Nat → Int × Int → List RawItem)
    (h1 : (parseMoedas args.moedas).filter (fun m => lookupSeries m = none) = [])
    (h2 : collectRows (parseMoedas args.moedas)
      (computeWindow today args.days args.years) fetch ≠ [])
    (h3 : dirnameL args.out ≠ []) :
    mainRun args today fetch =
      Outcome.ok args.out
        (writeCSV (transform (collectRows (parseMoedas args.moedas)
          (computeWindow today args.days args.years) fetch)))
        "utf-8".toList
        (if args.excel then some (xlsxPathOf args.out) else none) ∧
    (mainRun args today fetch).files.head? = some args.out ∧
    (∀ rows : List ORow,
      writeCSV rows = headerLine ++ '\n' :: unlines (rows.map rowLine)) := by
  have h := mainRun_ok args today fetch h1 h2 h3
  refine ⟨h, ?_, ?_⟩
  · rw [h]
    by_cases hx : args.excel <;> simp [hx, Outcome.files]
  · intro rows
    simp [writeCSV, unlines]

theorem C7_export_witness :
    ((parseMoedas argsUSD.moedas).filter (fun m => lookupSeries m = none) = [] ∧
     collectRows (parseMoedas argsUSD.moedas)
       (computeWindow 0 argsUSD.days argsUSD.years) fetchTwo ≠ [] ∧
     dirnameL argsUSD.out ≠ []) ∧
    (mainRun argsUSD 0 fetchTwo =
      Outcome.ok argsUSD.out
        (writeCSV (transform (collectRows (parseMoedas argsUSD.moedas)
          (computeWindow 0 argsUSD.days argsUSD.years) fetchTwo)))
        "utf-8".toList
        (if argsUSD.excel then some (xlsxPathOf argsUSD.out) else none) ∧
     (mainRun argsUSD 0 fetchTwo).files.head? = some argsUSD.out ∧
     (∀ rows : List ORow,
       writeCSV rows = headerLine ++ '\n' :: unlines (rows.map rowLine))) :=
  ⟨⟨by decide, by decide, by decide⟩,
    C7_export argsUSD 0 fetchTwo (by decide) (by decide) (by decide)⟩

/-- C8 (counterexample): the claim "the spreadsheet path replaces only the
trailing `.csv` extension" is false: `str.replace` replaces EVERY
occurrence, so `data.csv/cotacoes.csv` becomes `data.xlsx/cotacoes.xlsx`,
not `data.csv/cotacoes.xlsx`. -/
theorem C8_counterexample :
    xlsxPathOf "data.csv/cotacoes.csv".toList = "data.xlsx/cotacoes.xlsx".toList ∧
    specXlsxPath "data.csv/cotacoes.csv".toList = "data.csv/cotacoes.xlsx".toList ∧
    xlsxPathOf "data.csv/cotacoes.csv".toList ≠
      specXlsxPath "data.csv/cotacoes.csv".toList := by decide

/-- C8 (amended): with the spreadsheet flag set the copy is written at
`out.replace(".csv", ".xlsx")`, which replaces EVERY occurrence of the
substring `.csv`; when `.csv` occurs only as the trailing extension this is
exactly extension replacement. -/
theorem C8_xlsx (args : Args) (today : Int)
    (fetch : Nat → Int × Int → List RawItem)
    (h1 : (parseMoedas args.moedas).filter (fun m => lookupSeries m = none) = [])
    (h2 : collectRows (parseMoedas args.moedas)
      (computeWindow today args.days args.years) fetch ≠ [])
    (h3 : dirnameL args.out ≠ [])
    (hx : args.excel = true) :
    (mainRun args today fetch).files = [args.out, xlsxPathOf args.out] ∧
    (∀ stem : Str, args.out = stem ++ ".csv".toList →
      (∀ i, i < stem.length → ¬ (".csv".toList.isPrefixOf (args.out.drop i) = true)) →
      xlsxPathOf args.out = stem ++ ".xlsx".toList) := by
  have h := mainRun_ok args today fetch h1 h2 h3
  constructor
  · rw [h]
    simp [hx, Outcome.files]
  · intro stem hstem honly
    rw [xlsxPathOf, hstem]
    apply pyReplace_append_pat stem _ _ (by decide)
    intro i hi
    have hthis := honly i hi
    rw [hstem] at hthis
    exact hthis

theorem C8_xlsx_witness :
    ((parseMoedas argsExcel.moedas).filter (fun m => lookupSeries m = none) = [] ∧
     collectRows (parseMoedas argsExcel.moedas)
       (computeWindow 0 argsExcel.days argsExcel.years) fetchTwo ≠ [] ∧
     dirnameL argsExcel.out ≠ [] ∧ argsExcel.excel = true ∧
     argsExcel.out = "data/cotacoes".toList ++ ".csv".toList) ∧
    (mainRun argsExcel 0 fetchTwo).files = [argsExcel.out, xlsxPathOf argsExcel.out] ∧
    xlsxPathOf argsExcel.out = "data/cotacoes".toList ++ ".xlsx".toList :=
  ⟨⟨by decide, by decide, by decide, by decide, by decide⟩,
    (C8_xlsx argsExcel 0 fetchTwo (by decide) (by decide) (by decide) (by decide)).1,
    (C8_xlsx argsExcel 0 fetchTwo (by decide) (by decide) (by decide) (by decide)).2
      "data/cotacoes".toList (by decide) (by decide)⟩

/-- C9: writing a table to CSV and re-reading it recovers exactly the
(date, currency, value_brl) triples, in order, at the level of numeric
values (the model keeps values exact, so "up to floating-point rounding"
holds with equality), provided currency fields contain no separator
characters — true of every currency code the pipeline produces. -/
theorem C9_roundtrip (rows : List ORow) (h : ∀ r ∈ rows, WFRow r) :
    readCSV (writeCSV rows) =
      rows.map fun r => some (r.date, r.currency, r.value_brl.toRat) :=
  readCSV_writeCSV rows h

theorem C9_roundtrip_witness :
    (∀ r ∈ rowsCSV, WFRow r) ∧
    readCSV (writeCSV rowsCSV) =
      rowsCSV.map fun r => some (r.date, r.currency, r.value_brl.toRat) :=
  ⟨by decide, C9_roundtrip rowsCSV (by decide)⟩

/-- C10: the currency-list argument is split on commas, each segment is
stripped of surrounding whitespace and upper-cased, and segments that strip
to nothing are silently dropped; `"usd, eur,"` resolves to exactly USD and
EUR. -/
theorem C10_moedas :
    (∀ s : Str, parseMoedas s = specMoedas s) ∧
    parseMoedas "usd, eur,".toList = ["USD".toList, "EUR".toList] := by
  constructor
  · intro s
    rw [parseMoedas, specMoedas, List.filter_map]
    congr 1
    apply List.filter_congr
    intro m _
    simp [pyUpper, List.map_eq_nil_iff]
  · decide
